import Mathlib

/-
Verification of the rule-based file sorter
(src/rule_based_sort/rule_based_sorter.py) against its natural-language
specification.  The Python code is shallowly embedded: Python scalar
values become the inductive type Value, dictionaries become association
lists with first-match lookup, raised exceptions become Except.error,
and the regular-expression engine (the Python re module, which is not
part of this repository) is a parameter of the evaluator.  String
primitives (split, strip, upper, prefix and suffix tests) are defined
here by structural recursion over character lists so that closed
instances evaluate inside the kernel; scanners that advance by more
than one character per step take an explicit step budget that the
wrappers instantiate with the input length, which every scan step
strictly decreases, so the budget-exhausted branch is unreachable.
-/

namespace RuleBasedSort

/-- Python scalar value as it occurs in metadata records and rule values:
a string, an integer, or None.  These are the value shapes the
specification admits for metadata fields (string, null/absent, or a value
with a canonical text form). -/
inductive Value where
  | str (s : String)
  | int (n : Int)
  | none
deriving DecidableEq

/-- Python str() applied to a Value: the canonical text form.  str of an
int is its decimal form, str(None) is the text None. -/
def pyStr : Value → String
  | .str s => s
  | .int n => toString n
  | .none => "None"

/-- Python equality between two scalar values: values of different types
are never equal (no implicit coercion). -/
def pyEq : Value → Value → Bool
  | .str s, .str t => s == t
  | .int m, .int n => m == n
  | .none, .none => true
  | _, _ => false

/-- A metadata record: a Python dict modelled as an association list,
looked up with first-match semantics (keys are unique in a dict, and the
functions below construct lists whose first match realises dict
override semantics). -/
abbrev Metadata := List (String × Value)

/-- The regular-expression engine (Python re module, external to the
repository): given a pattern and a subject it returns some b when the
pattern compiles and searching yields b, and none when the pattern is
malformed (re.error). -/
abbrev RegexEngine := String → String → Option Bool

/-- The exceptions get_new_location and the evaluators can raise:
TypeError (from string operations applied to non-string rule values),
FileNotFoundError, and the two ValueError outcomes of rule matching
(no rule matched / multiple rules matched, the latter carrying the
matched rule names in configuration order). -/
inductive SortError where
  | typeError
  | fileNotFound (path : String)
  | noRuleMatched (filename : String)
  | ambiguousRuleMatch (filename : String) (names : List String)
deriving DecidableEq

/-- Python s.startswith(p). -/
def pyStartsWith (s p : String) : Bool :=
  p.toList.isPrefixOf s.toList

/-- Python s.endswith(p). -/
def pyEndsWith (s p : String) : Bool :=
  p.toList.reverse.isPrefixOf s.toList.reverse

/-- Python s.upper() on the ASCII letters the configuration uses. -/
def pyUpper (s : String) : String :=
  String.mk (s.toList.map Char.toUpper)

/-- Python s.strip(): whitespace removed from both ends. -/
def pyStrip (s : String) : String :=
  String.mk
    (((s.toList.dropWhile Char.isWhitespace).reverse.dropWhile
        Char.isWhitespace).reverse)

/-- The scanner of Python s.split(sep) for a nonempty separator: the
input is consumed left to right, each non-overlapping occurrence of the
separator closes the piece accumulated so far (held reversed); every
step consumes at least one character, so a budget of the input length
never runs out. -/
def splitOnFuel (sep : List Char) : Nat → List Char → List Char →
    List (List Char)
  | _, [], acc => [acc.reverse]
  | 0, l, acc => [acc.reverse ++ l]
  | fuel + 1, c :: cs, acc =>
    if sep ≠ [] ∧ sep.isPrefixOf (c :: cs) then
      acc.reverse :: splitOnFuel sep fuel ((c :: cs).drop sep.length) []
    else splitOnFuel sep fuel cs (c :: acc)

/-- Python s.split(sep) for a nonempty separator (the code only splits
on the pipe, the slash, and template-reference texts, all nonempty); an
empty separator returns the string whole. -/
def pySplitOn (s sep : String) : List String :=
  if sep = "" then [s]
  else (splitOnFuel sep.toList s.toList.length s.toList []).map String.mk

/-- Python substring membership, needle in hay: true when the needle is
empty or splitting the hay on the needle finds at least one occurrence. -/
def pyContains (needle hay : String) : Bool :=
  needle == "" || (pySplitOn hay needle).length != 1

/-- A condition dictionary.  The Python code represents both leaves and
groups as dicts and dispatches on the presence of the logic key; the
embedding carries all five keys, with Option none for an absent key
(rules is only ever read through get with default empty list, so an
absent rules key is observationally the empty list, and a rule value of
None is observationally an absent value key). -/
inductive Cond where
  | mk (logic : Option String) (rules : List Cond) (field : Option String)
       (op : Option String) (value : Value)

/-- The logic entry of a condition dict (none when the key is absent). -/
def Cond.logic : Cond → Option String
  | .mk l _ _ _ _ => l

/-- The rules entry of a condition dict. -/
def Cond.rules : Cond → List Cond
  | .mk _ r _ _ _ => r

/-- The field entry of a condition dict. -/
def Cond.field : Cond → Option String
  | .mk _ _ f _ _ => f

/-- The operator entry of a condition dict. -/
def Cond.op : Cond → Option String
  | .mk _ _ _ o _ => o

/-- The value entry of a condition dict. -/
def Cond.value : Cond → Value
  | .mk _ _ _ _ v => v

/-- The operator dispatch of a simple (leaf) condition in
_evaluate_condition, applied to the looked-up field value: equals and
not_equals use Python equality; contains, starts_with, ends_with and
regex demand a string rule value (a non-string raises TypeError, which
the code does not catch) and test it against str of the field value; a
malformed regex pattern (engine answers none, i.e. re.error) is caught
and gives false; an unrecognized operator gives false. -/
def evalLeafOp (eng : RegexEngine) (op : Option String) (value : Value)
    (fileValue : Value) : Except SortError Bool :=
  if op = some "equals" then .ok (pyEq fileValue value)
  else if op = some "not_equals" then .ok (!pyEq fileValue value)
  else if op = some "contains" then
    match value with
    | .str s => .ok (pyContains s (pyStr fileValue))
    | _ => .error .typeError
  else if op = some "starts_with" then
    match value with
    | .str s => .ok (pyStartsWith (pyStr fileValue) s)
    | _ => .error .typeError
  else if op = some "ends_with" then
    match value with
    | .str s => .ok (pyEndsWith (pyStr fileValue) s)
    | _ => .error .typeError
  else if op = some "regex" then
    match value with
    | .str pat =>
      match eng pat (pyStr fileValue) with
      | some b => .ok b
      | Option.none => .ok false
    | _ => .error .typeError
  else .ok false

/-- The field-presence guard of a leaf: a missing field (or a field
entry that is absent) is false; otherwise the looked-up value is tested
by the operator dispatch. -/
def evalLeaf (eng : RegexEngine) (metadata : Metadata)
    (field op : Option String) (value : Value) : Except SortError Bool :=
  match field with
  | Option.none => .ok false
  | some f =>
    match metadata.lookup f with
    | Option.none => .ok false
    | some fileValue => evalLeafOp eng op value fileValue

mutual

/-- _evaluate_condition: a dict with a logic key is evaluated as a group
(an empty rules list is true; the logic string is uppercased; AND
short-circuits to false on the first false child, OR to true on the
first true child; any other logic string gives false), and a dict
without one as a leaf. -/
def evalCondition (eng : RegexEngine) (metadata : Metadata) :
    Cond → Except SortError Bool
  | .mk (some l) rules _ _ _ =>
    if rules.isEmpty then .ok true
    else
      let u := pyUpper ((some l).getD "AND")
      if u = "AND" then evalAll eng metadata rules
      else if u = "OR" then evalAny eng metadata rules
      else .ok false
  | .mk Option.none _ field op value => evalLeaf eng metadata field op value

/-- Python all over a generator of condition evaluations: stops at the
first false child; exceptions propagate. -/
def evalAll (eng : RegexEngine) (metadata : Metadata) :
    List Cond → Except SortError Bool
  | [] => .ok true
  | c :: cs =>
    match evalCondition eng metadata c with
    | .error e => .error e
    | .ok true => evalAll eng metadata cs
    | .ok false => .ok false

/-- Python any over a generator of condition evaluations: stops at the
first true child; exceptions propagate. -/
def evalAny (eng : RegexEngine) (metadata : Metadata) :
    List Cond → Except SortError Bool
  | [] => .ok false
  | c :: cs =>
    match evalCondition eng metadata c with
    | .error e => .error e
    | .ok true => .ok true
    | .ok false => evalAny eng metadata cs

end

/-- The body of _evaluate_conditions on a logic entry (defaulting to
AND for a missing key) and a rules entry: an empty rules list is true,
the uppercased logic selects conjunction or disjunction, anything else
is false. -/
def evalGroup (eng : RegexEngine) (metadata : Metadata)
    (logic : Option String) (rules : List Cond) : Except SortError Bool :=
  if rules.isEmpty then .ok true
  else
    let u := pyUpper (logic.getD "AND")
    if u = "AND" then evalAll eng metadata rules
    else if u = "OR" then evalAny eng metadata rules
    else .ok false

/-- _evaluate_conditions: reads the logic and rules entries of the dict
(with defaults) and evaluates the group body. -/
def evalConditions (eng : RegexEngine) (metadata : Metadata) (c : Cond) :
    Except SortError Bool :=
  evalGroup eng metadata c.logic c.rules

/-- Dispatching a dict that carries a logic key through
_evaluate_condition is the same as evaluating it with
_evaluate_conditions. -/
theorem evalCondition_group (eng : RegexEngine) (metadata : Metadata)
    (l : String) (rules : List Cond) (f o : Option String) (v : Value) :
    evalCondition eng metadata (Cond.mk (some l) rules f o v)
      = evalConditions eng metadata (Cond.mk (some l) rules f o v) := rfl

/-- The opening-brace character, written by code point to keep braces out
of string literals. -/
def lbrace : Char := Char.ofNat 123

/-- The closing-brace character. -/
def rbrace : Char := Char.ofNat 125

/-- A single-quote character as a one-character string. -/
def squote : String := "\x27"

/-- A double-quote character as a one-character string. -/
def dquote : String := "\x22"

/-- The last path component as os.path.basename computes it on POSIX:
everything after the last slash (so a path ending in a slash has an
empty basename). -/
def osBasename (p : String) : String :=
  (pySplitOn p "/").getLastD ""

/-- os.path.join of a directory and one further component on POSIX: an
absolute second component replaces the first, otherwise the two are
joined with a single slash. -/
def osPathJoin (a b : String) : String :=
  if pyStartsWith b "/" then b
  else if a = "" ∨ pyEndsWith a "/" then a ++ b
  else a ++ "/" ++ b

/-- The final path component as pathlib computes name, for the
argument shapes the sorter produces (a basename, or a path whose last
nonempty component is the filename): the last nonempty slash-separated
component. -/
def pyPathName (p : String) : String :=
  ((pySplitOn p "/").filter (fun s => s ≠ "")).getLastD ""

/-- The stem/suffix split of pathlib on a file name: the name splits at
its last dot provided that dot is neither the first nor the last
character; otherwise the stem is the whole name and the suffix empty. -/
def pyStemSuffix (name : String) : String × String :=
  let cs := name.toList
  match cs.reverse.findIdx? (fun c => c == '.') with
  | Option.none => (name, "")
  | some k =>
    let n := cs.length
    let i := n - 1 - k
    if 0 < i ∧ i < n - 1 then (String.mk (cs.take i), String.mk (cs.drop i))
    else (name, "")

/-- Path(p).stem. -/
def pyStem (p : String) : String := (pyStemSuffix (pyPathName p)).1

/-- Path(p).suffix. -/
def pySuffix (p : String) : String := (pyStemSuffix (pyPathName p)).2

/-- Python str.strip() truthiness test used on fallback values: true when
the text form is nonempty after stripping whitespace. -/
def nonBlank (s : String) : Bool := pyStrip s ≠ ""

/-- The quoted-literal test of _replace_placeholders: the option both
starts and ends with a single quote, or both starts and ends with a
double quote (a one-character quote string passes). -/
def isQuotedLiteral (opt : String) : Bool :=
  (pyStartsWith opt squote && pyEndsWith opt squote) ||
  (pyStartsWith opt dquote && pyEndsWith opt dquote)

/-- Python slicing opt[1:-1]: the option without its first and last
characters. -/
def unquote (opt : String) : String :=
  String.mk ((opt.toList.drop 1).dropLast)

/-- The fallback loop of replace_with_fallback: options are scanned left
to right; a quoted literal resolves at once to its unquoted contents; an
option that names a metadata field other than filename whose value is
present, not None, and non-blank after stripping resolves to the text
form of that value; when no option resolves the result is the empty
string. -/
def firstResolve (metadata : Metadata) : List String → String
  | [] => ""
  | opt :: rest =>
    if isQuotedLiteral opt then unquote opt
    else
      match metadata.lookup opt with
      | some v =>
        if opt ≠ "filename" ∧ v ≠ Value.none ∧ nonBlank (pyStr v) then pyStr v
        else firstResolve metadata rest
      | Option.none => firstResolve metadata rest

/-- replace_with_fallback applied to the content of one brace token: the
exact contents original and ext give the stem and suffix of the original
filename; any other content is split on pipes, each option stripped of
whitespace, and resolved by the fallback loop. -/
def resolvePlaceholder (metadata : Metadata) (originalFilename : String)
    (content : String) : String :=
  if content = "original" then pyStem originalFilename
  else if content = "ext" then pySuffix originalFilename
  else firstResolve metadata ((pySplitOn content "|").map pyStrip)

/-- The re.sub scan over the template for brace tokens: a brace token is
an opening brace, one or more non-closing-brace characters, and a
closing brace; each token is replaced by replace_with_fallback of its
content and scanning resumes after the token (replacement text is not
rescanned); characters outside tokens, including a brace that opens no
well-formed token, are copied unchanged.  Every step consumes at least
one input character, so a budget of the input length never runs out. -/
def substPHFuel (metadata : Metadata) (originalFilename : String) :
    Nat → List Char → List Char
  | _, [] => []
  | 0, l => l
  | fuel + 1, c :: cs =>
    if c = lbrace then
      match cs.dropWhile (fun d => d != rbrace) with
      | [] => c :: substPHFuel metadata originalFilename fuel cs
      | _ :: rest =>
        let content := cs.takeWhile (fun d => d != rbrace)
        if content.isEmpty then
          c :: substPHFuel metadata originalFilename fuel cs
        else
          (resolvePlaceholder metadata originalFilename
              (String.mk content)).toList
            ++ substPHFuel metadata originalFilename fuel rest
    else c :: substPHFuel metadata originalFilename fuel cs

/-- The placeholder pass of _replace_placeholders over a character
list. -/
def substPlaceholders (metadata : Metadata) (originalFilename : String)
    (l : List Char) : List Char :=
  substPHFuel metadata originalFilename l.length l

/-- Python word character for the template-reference pattern: an ASCII
letter, digit, or underscore. -/
def isWordChar (c : Char) : Bool := c.isAlphanum || c == '_'

/-- The re.findall scan for template references: every non-overlapping
occurrence of a dollar sign, the literal text template and a dot, and a
maximal nonempty run of word characters, yielding the captured names in
order of occurrence.  Every step consumes at least one input character,
so a budget of the input length never runs out. -/
def findRefsFuel : Nat → List Char → List String
  | _, [] => []
  | 0, _ => []
  | fuel + 1, c :: cs =>
    if c = '$' then
      if cs.take 9 = "template.".toList then
        let after := cs.drop 9
        let w := after.takeWhile isWordChar
        if w.isEmpty then findRefsFuel fuel cs
        else String.mk w :: findRefsFuel fuel (after.dropWhile isWordChar)
      else findRefsFuel fuel cs
    else findRefsFuel fuel cs

/-- The names captured by re.findall over a template. -/
def findTemplateRefs (l : List Char) : List String :=
  findRefsFuel l.length l

/-- Python str.replace for a nonempty pattern: every non-overlapping
occurrence, found left to right, is replaced. -/
def strReplace (s pat rep : String) : String :=
  String.intercalate rep (pySplitOn s pat)

/-- The first pass of _replace_placeholders: the names of all template
references found in the original template are collected, then for each
name in that order, if the name is in the template table, every
occurrence of the reference text is replaced by the raw snippet body;
a name absent from the table is skipped, leaving its token as it is. -/
def expandTemplateRefs (templates : List (String × String)) (tmpl : String) :
    String :=
  (findTemplateRefs tmpl.toList).foldl
    (fun res name =>
      match templates.lookup name with
      | some body => strReplace res ("$template." ++ name) body
      | Option.none => res)
    tmpl

/-- _replace_placeholders: template references are expanded first, then
brace placeholders are substituted in the resulting string. -/
def replacePlaceholders (templates : List (String × String))
    (template : String) (metadata : Metadata) (originalFilename : String) :
    String :=
  String.mk (substPlaceholders metadata originalFilename
    (expandTemplateRefs templates template).toList)

/-- The value attached to one field of a when shorthand mapping: a
scalar, or a list of scalars. -/
inductive WhenValue where
  | scalar (v : Value)
  | list (vs : List Value)

/-- An equals leaf generated by shorthand compilation: a condition dict
with only the field, operator and value keys. -/
def whenLeaf (field : String) (v : Value) : Cond :=
  Cond.mk Option.none [] (some field) (some "equals") v

/-- The leaf-building loop of _convert_when_to_conditions: entries in
mapping order, a scalar contributing one equals leaf and a list one
equals leaf per listed value, appended in input order. -/
def whenRules (when : List (String × WhenValue)) : List Cond :=
  when.foldl
    (fun acc fv =>
      match fv.2 with
      | .scalar v => acc ++ [whenLeaf fv.1 v]
      | .list vs => acc ++ vs.map (whenLeaf fv.1))
    []

/-- _convert_when_to_conditions: the generated leaves with a logic
chosen by the heuristic of the code: a single leaf gives an AND group;
otherwise, if all leaves carry one single field, an OR group, else an
AND group. -/
def convertWhenToConditions (when : List (String × WhenValue)) : Cond :=
  let rules := whenRules when
  if rules.length == 1 then
    Cond.mk (some "AND") rules Option.none Option.none Value.none
  else if ((rules.map Cond.field).dedup).length == 1 then
    Cond.mk (some "OR") rules Option.none Option.none Value.none
  else
    Cond.mk (some "AND") rules Option.none Option.none Value.none

/-- A configured rule record: name, conditions, path template and
filename template, each possibly absent. -/
structure Rule where
  name : Option String
  conditions : Option Cond
  path : Option String
  filename : Option String

/-- The sorter state relevant to classification: the template table and
the rule list from the configuration, and the base output directory. -/
structure FileSorter where
  templates : List (String × String)
  rules : List Rule
  baseOutputDir : String

/-- The empty dict used when a rule has no conditions entry. -/
def defaultConditions : Cond :=
  Cond.mk Option.none [] Option.none Option.none Value.none

/-- Evaluation of one rule inside _find_all_matching_rules: its
conditions entry, defaulting to the empty dict (which is always true),
evaluated by _evaluate_conditions. -/
def ruleMatches (eng : RegexEngine) (metadata : Metadata) (r : Rule) :
    Except SortError Bool :=
  evalConditions eng metadata (r.conditions.getD defaultConditions)

/-- The loop of _find_all_matching_rules over a rule list: rules are
evaluated in order, matches collected in order; an exception from an
evaluation propagates at that point. -/
def filterMatchingRules (eng : RegexEngine) (metadata : Metadata) :
    List Rule → Except SortError (List Rule)
  | [] => .ok []
  | r :: rs =>
    match ruleMatches eng metadata r with
    | .error e => .error e
    | .ok b =>
      match filterMatchingRules eng metadata rs with
      | .error e => .error e
      | .ok rest => .ok (if b then r :: rest else rest)

/-- _find_all_matching_rules: all configured rules whose conditions are
satisfied by the metadata, in configuration order. -/
def findAllMatchingRules (eng : RegexEngine) (fs : FileSorter)
    (metadata : Metadata) : Except SortError (List Rule) :=
  filterMatchingRules eng metadata fs.rules

/-- The rule name used in results and diagnostics: the name entry,
defaulting to Unnamed. -/
def ruleNameOf (r : Rule) : String := r.name.getD "Unnamed"

/-- The metadata dict built by get_new_location: a dict holding filename
mapped to the original file's base name, updated with the caller's
keyword metadata (so a caller-supplied filename entry overrides the
injected one; the association list realises this by putting the keyword
entries before the injected entry under first-match lookup). -/
def prepareMetadata (originalFilename : String)
    (kwargs : List (String × Value)) : Metadata :=
  kwargs ++ [("filename", Value.str originalFilename)]

/-- get_new_location: requires the original file to exist (else
FileNotFoundError); builds the file metadata from the basename and the
keyword metadata; collects all matching rules; zero matches raise
NoRuleMatched and two or more raise AmbiguousRuleMatch with the matched
rule names in configuration order; exactly one match resolves the
rule's path and filename templates (defaults . and the original
placeholder), joins the path onto the base output directory, and
returns the sanitized path, sanitized filename and rule name.  The
filesystem and the external sanitizers are parameters. -/
def getNewLocation (eng : RegexEngine) (fileExists : String → Bool)
    (sanP sanF : String → String) (fs : FileSorter)
    (originalFilepath : String) (kwargs : List (String × Value)) :
    Except SortError (String × String × String) :=
  if fileExists originalFilepath then
    let originalFilename := osBasename originalFilepath
    let fileMetadata := prepareMetadata originalFilename kwargs
    match filterMatchingRules eng fileMetadata fs.rules with
    | .error e => .error e
    | .ok [] => .error (.noRuleMatched originalFilename)
    | .ok [rule] =>
      let relativePath := replacePlaceholders fs.templates (rule.path.getD ".")
        fileMetadata originalFilename
      let newFilename := replacePlaceholders fs.templates
        (rule.filename.getD ("\x7boriginal\x7d")) fileMetadata originalFilename
      let absolutePath := osPathJoin fs.baseOutputDir relativePath
      .ok (sanP absolutePath, sanF newFilename, ruleNameOf rule)
    | .ok (r₁ :: r₂ :: rest) =>
      .error (.ambiguousRuleMatch originalFilename
        ((r₁ :: r₂ :: rest).map ruleNameOf))
  else .error (.fileNotFound originalFilepath)

/-- A concrete regular-expression engine usable in closed computations:
it reports every pattern as compiling and not matching. -/
def noopEngine : RegexEngine := fun _ _ => some false

/-- A simple condition dict with the given field, operator and value and
no logic or rules entries. -/
def leafC (f o : String) (v : Value) : Cond :=
  Cond.mk Option.none [] (some f) (some o) v

/-- C10: get_new_location raises FileNotFoundError whenever the original
filepath does not name an existing file, before any rule matching or
template resolution: the result is the FileNotFoundError for every
configuration, rule list and metadata, so no other component runs. -/
theorem c10_file_not_found (eng : RegexEngine) (ex : String → Bool)
    (sanP sanF : String → String) (fs : FileSorter) (p : String)
    (kwargs : List (String × Value)) (h : ex p = false) :
    getNewLocation eng ex sanP sanF fs p kwargs = .error (.fileNotFound p) := by
  simp [getNewLocation, h]

/-- Witness for C10 at a concrete missing file. -/
theorem c10_witness :
    getNewLocation noopEngine (fun _ => false) id id ⟨[], [], "/o"⟩
      "missing.pdf" [] = .error (.fileNotFound "missing.pdf") :=
  c10_file_not_found noopEngine (fun _ => false) id id ⟨[], [], "/o"⟩
    "missing.pdf" [] rfl

/-- C3, counterexample: the metadata record used by get_new_location does
not always map filename to the base name of the original filepath: a
caller-supplied filename keyword overrides the injected base name, since
the dict of keyword metadata is applied as an update over the injected
entry. -/
theorem c3_counterexample :
    osBasename "/tmp/real.pdf" = "real.pdf" ∧
    (prepareMetadata (osBasename "/tmp/real.pdf")
        [("filename", Value.str "spoof")]).lookup "filename"
      = some (Value.str "spoof") ∧
    (some (Value.str "spoof") : Option Value) ≠ some (Value.str "real.pdf") :=
  ⟨rfl, rfl, by simp⟩

/-- C3 as amended: the metadata record used for rule matching and
template resolution maps filename to the base name of the original
filepath provided the caller does not itself supply a filename keyword;
a caller-supplied filename keyword overrides the injected value. -/
theorem c3_filename_injected (fn : String) (kwargs : List (String × Value))
    (h : kwargs.lookup "filename" = Option.none) :
    (prepareMetadata fn kwargs).lookup "filename" = some (Value.str fn) := by
  induction kwargs with
  | nil => rfl
  | cons kv rest ih =>
    simp only [prepareMetadata, List.cons_append, List.lookup] at h ⊢
    cases hk : ("filename" == kv.1)
    · rw [hk] at h
      exact ih h
    · rw [hk] at h
      cases h

/-- Witness for C3 at concrete keyword metadata without a filename key. -/
theorem c3_witness :
    (prepareMetadata "f.pdf" [("doc", Value.str "X")]).lookup "filename"
      = some (Value.str "f.pdf") :=
  c3_filename_injected "f.pdf" [("doc", Value.str "X")] rfl

/-- C2, counterexample: equals does not coerce across types: with the
metadata field holding the number 5 and the rule value the string 5, the
leaf evaluates to false, while the claim demands they compare equal
after to-text coercion. -/
theorem c2_counterexample :
    evalCondition noopEngine [("v", Value.int 5)]
        (leafC "v" "equals" (Value.str "5")) = .ok false ∧
    (Except.ok false : Except SortError Bool) ≠ .ok true :=
  ⟨rfl, by simp⟩

/-- C2 as amended: for a leaf whose field is present, equals and
not_equals compare by Python equality with no to-text coercion (values
of different types are never equal, so the number 5 does not equal the
string 5); contains, starts_with, ends_with and regex use the rule's
value verbatim as a string, tested against the text form of the field's
value, and raise TypeError when the rule's value is not a string. -/
theorem c2_operator_semantics (eng : RegexEngine) (m : Metadata)
    (f : String) (fv : Value) (h : m.lookup f = some fv) :
    (∀ v, evalCondition eng m (leafC f "equals" v) = .ok (pyEq fv v)) ∧
    (∀ v, evalCondition eng m (leafC f "not_equals" v) = .ok (!pyEq fv v)) ∧
    (∀ n s, pyEq (Value.int n) (Value.str s) = false ∧
            pyEq (Value.str s) (Value.int n) = false) ∧
    (∀ s, evalCondition eng m (leafC f "contains" (Value.str s))
        = .ok (pyContains s (pyStr fv))) ∧
    (∀ s, evalCondition eng m (leafC f "starts_with" (Value.str s))
        = .ok (pyStartsWith (pyStr fv) s)) ∧
    (∀ s, evalCondition eng m (leafC f "ends_with" (Value.str s))
        = .ok (pyEndsWith (pyStr fv) s)) ∧
    (∀ pat, evalCondition eng m (leafC f "regex" (Value.str pat))
        = .ok ((eng pat (pyStr fv)).getD false)) ∧
    (∀ n, evalCondition eng m (leafC f "contains" (Value.int n))
        = .error .typeError) ∧
    (evalCondition eng m (leafC f "starts_with" Value.none)
        = .error .typeError) := by
  refine ⟨fun v => ?_, fun v => ?_, fun n s => ⟨rfl, rfl⟩, fun s => ?_,
      fun s => ?_, fun s => ?_, fun pat => ?_, fun n => ?_, ?_⟩ <;>
    simp only [evalCondition, leafC, evalLeaf, h] <;>
    first
      | rfl
      | (cases he : eng pat (pyStr fv) <;> simp [evalLeafOp, he])

/-- Witness for C2 at a concrete metadata record and leaf. -/
theorem c2_witness :
    evalCondition noopEngine [("a", Value.str "hello")]
        (leafC "a" "contains" (Value.str "ell"))
      = .ok (pyContains "ell" (pyStr (Value.str "hello"))) :=
  (c2_operator_semantics noopEngine [("a", Value.str "hello")] "a"
    (Value.str "hello") rfl).2.2.2.1 "ell"

/-- C7: the snippet-expansion pass contradicts its own stated soft-fail
behavior: a token naming an unknown snippet is meant to be left
unchanged (the code comment and the test suite say so, and the two
isolated facts hold), but replacement by str.replace corrupts an
unknown-snippet token whose name has a known snippet's name as a
prefix: expanding with a table holding only the name ab turns the token
for the absent name abc into X followed by c. -/
theorem c7_replace_collision :
    expandTemplateRefs [("ab", "X")] "$template.abc" = "$template.abc" ∧
    expandTemplateRefs [("ab", "X")] "$template.ab hi" = "X hi" ∧
    expandTemplateRefs [("ab", "X")] "$template.ab $template.abc" = "X Xc" ∧
    replacePlaceholders [("ab", "X")] "$template.ab $template.abc" [] "f.pdf"
      = "X Xc" :=
  ⟨rfl, rfl, rfl, rfl⟩

/-- Formalisation of the claim's wording for the generated leaves: each
scalar entry yields one equals leaf and each list entry yields one
equals leaf per listed value, in input order. -/
def specShorthandLeaves (when : List (String × WhenValue)) : List Cond :=
  when.flatMap (fun fv =>
    match fv.2 with
    | .scalar v => [whenLeaf fv.1 v]
    | .list vs => vs.map (whenLeaf fv.1))

/-- Formalisation of the claim's wording for the combination heuristic:
when every generated leaf targets the same single field the leaves are
combined in an OR group, otherwise in an AND group. -/
def specShorthandCompile (when : List (String × WhenValue)) : Cond :=
  let leaves := specShorthandLeaves when
  if ((leaves.map Cond.field).dedup).length == 1 then
    Cond.mk (some "OR") leaves Option.none Option.none Value.none
  else
    Cond.mk (some "AND") leaves Option.none Option.none Value.none

/-- The amended combination heuristic matching the code: an OR group
exactly when there is more than one generated leaf and all generated
leaves target the same single field; a single leaf (or none, or mixed
fields) gives an AND group. -/
def specShorthandCompileAmended (when : List (String × WhenValue)) : Cond :=
  let leaves := specShorthandLeaves when
  if leaves.length != 1 && ((leaves.map Cond.field).dedup).length == 1 then
    Cond.mk (some "OR") leaves Option.none Option.none Value.none
  else
    Cond.mk (some "AND") leaves Option.none Option.none Value.none

/-- The leaf-building loop agrees with the flat-map description of the
generated leaves, for every starting accumulator. -/
theorem whenRules_foldl (w : List (String × WhenValue)) :
    ∀ acc, w.foldl
        (fun acc fv =>
          match fv.2 with
          | .scalar v => acc ++ [whenLeaf fv.1 v]
          | .list vs => acc ++ vs.map (whenLeaf fv.1)) acc
      = acc ++ specShorthandLeaves w := by
  induction w with
  | nil => intro acc; simp [specShorthandLeaves]
  | cons fv rest ih =>
    intro acc
    simp only [List.foldl_cons, specShorthandLeaves, List.flatMap_cons]
    rw [ih]
    cases h2 : fv.2 <;> simp [specShorthandLeaves, List.append_assoc]

/-- The code's generated leaves are the claim's generated leaves. -/
theorem whenRules_eq (w : List (String × WhenValue)) :
    whenRules w = specShorthandLeaves w := by
  simpa using whenRules_foldl w []

/-- C4, counterexample: a shorthand with a single scalar entry generates
one leaf, and every generated leaf then targets the same single field,
so the claim demands an OR group; the code compiles it to an AND
group. -/
theorem c4_counterexample :
    (convertWhenToConditions [("t", WhenValue.scalar (Value.str "v"))]).logic
      = some "AND" ∧
    (specShorthandCompile [("t", WhenValue.scalar (Value.str "v"))]).logic
      = some "OR" ∧
    (some "AND" : Option String) ≠ some "OR" :=
  ⟨rfl, rfl, by simp⟩

/-- C4 as amended: shorthand compilation is deterministic and total;
each scalar entry yields one equals leaf and each list entry one equals
leaf per listed value in input order; the leaves are combined in an OR
group exactly when there is more than one generated leaf and all
generated leaves target the same single field, and in an AND group
otherwise (in particular a single generated leaf gives an AND group). -/
theorem c4_shorthand_compilation (w : List (String × WhenValue)) :
    convertWhenToConditions w = specShorthandCompileAmended w := by
  unfold convertWhenToConditions specShorthandCompileAmended
  simp only [whenRules_eq]
  by_cases h1 : (specShorthandLeaves w).length = 1 <;>
    by_cases h2 :
      (((specShorthandLeaves w).map Cond.field).dedup).length = 1 <;>
    simp [h1, h2]

/-- C9: group evaluation dispatches on the logic string
case-insensitively with a default: with a non-empty rules list, a
missing logic key behaves as the logic AND; any string uppercasing to
AND behaves as AND and any string uppercasing to OR behaves as OR; and
a logic string uppercasing to anything else evaluates to false. -/
theorem c9_logic_dispatch (eng : RegexEngine) (m : Metadata)
    (rules : List Cond) (f o : Option String) (v : Value)
    (hne : rules ≠ []) :
    (evalConditions eng m (Cond.mk Option.none rules f o v)
       = evalConditions eng m (Cond.mk (some "AND") rules f o v)) ∧
    (∀ s, pyUpper s = "AND" →
       evalConditions eng m (Cond.mk (some s) rules f o v)
         = evalConditions eng m (Cond.mk (some "AND") rules f o v)) ∧
    (∀ s, pyUpper s = "OR" →
       evalConditions eng m (Cond.mk (some s) rules f o v)
         = evalConditions eng m (Cond.mk (some "OR") rules f o v)) ∧
    (∀ s, pyUpper s ≠ "AND" → pyUpper s ≠ "OR" →
       evalConditions eng m (Cond.mk (some s) rules f o v) = .ok false) := by
  obtain ⟨r, rs, rfl⟩ := List.exists_cons_of_ne_nil hne
  have hAND : pyUpper "AND" = "AND" := rfl
  have hOR : pyUpper "OR" = "OR" := rfl
  refine ⟨rfl, fun s hs => ?_, fun s hs => ?_, fun s h1 h2 => ?_⟩
  · simp [evalConditions, evalGroup, Cond.logic, Cond.rules, hs, hAND]
  · simp [evalConditions, evalGroup, Cond.logic, Cond.rules, hs, hOR]
  · simp [evalConditions, evalGroup, Cond.logic, Cond.rules, h1, h2]

/-- Witness for C9: a mixed-case logic string behaves as its uppercase
form, and an unrecognized logic string gives false, at a concrete
group. -/
theorem c9_witness :
    evalConditions noopEngine []
        (Cond.mk (some "anD") [defaultConditions] Option.none Option.none
          Value.none)
      = evalConditions noopEngine []
          (Cond.mk (some "AND") [defaultConditions] Option.none Option.none
            Value.none) ∧
    evalConditions noopEngine []
        (Cond.mk (some "xor") [defaultConditions] Option.none Option.none
          Value.none)
      = .ok false := by
  constructor
  · exact (c9_logic_dispatch noopEngine [] [defaultConditions] Option.none
      Option.none Value.none (by simp)).2.1 "anD" rfl
  · exact (c9_logic_dispatch noopEngine [] [defaultConditions] Option.none
      Option.none Value.none (by simp)).2.2.2 "xor" (by decide) (by decide)

/-- C6: fallback chains are evaluated left to right: a placeholder
content other than the special tokens is split on pipes into stripped
options and handed to the fallback loop; a quoted option resolves at
once to its unquoted contents; an unquoted option naming a field other
than filename that is present with a non-None, non-blank value resolves
to the value's text form; the option filename never resolves; an option
that fails to resolve passes to the rest of the chain; and an exhausted
chain yields the empty string, never the brace text. -/
theorem c6_fallback_chain (m : Metadata) (fn : String) :
    (∀ content, content ≠ "original" → content ≠ "ext" →
      resolvePlaceholder m fn content
        = firstResolve m ((pySplitOn content "|").map pyStrip)) ∧
    (∀ opt rest, isQuotedLiteral opt = true →
      firstResolve m (opt :: rest) = unquote opt) ∧
    (∀ opt rest v, isQuotedLiteral opt = false → opt ≠ "filename" →
      m.lookup opt = some v → v ≠ Value.none → nonBlank (pyStr v) = true →
      firstResolve m (opt :: rest) = pyStr v) ∧
    (∀ rest, firstResolve m ("filename" :: rest) = firstResolve m rest) ∧
    (∀ opt rest, isQuotedLiteral opt = false →
      (m.lookup opt = Option.none ∨
        ∃ v, m.lookup opt = some v ∧
          (v = Value.none ∨ nonBlank (pyStr v) = false)) →
      firstResolve m (opt :: rest) = firstResolve m rest) ∧
    firstResolve m [] = "" := by
  refine ⟨fun content h1 h2 => ?_, fun opt rest hq => ?_,
      fun opt rest v hq hf hl hv hb => ?_, fun rest => ?_,
      fun opt rest hq hfail => ?_, rfl⟩
  · simp [resolvePlaceholder, h1, h2]
  · simp [firstResolve, hq]
  · simp [firstResolve, hq, hl, hf, hv, hb]
  · have hq : isQuotedLiteral "filename" = false := rfl
    simp only [firstResolve, hq, Bool.false_eq_true, if_false]
    cases hl : m.lookup "filename" <;> simp
  · rcases hfail with hl | ⟨v, hl, hv⟩
    · simp [firstResolve, hq, hl]
    · rcases hv with rfl | hb
      · simp [firstResolve, hq, hl]
      · simp [firstResolve, hq, hl, hb]

/-- Witness for C6: a quoted literal at the head of a chain resolves to
its unquoted contents at a concrete option list. -/
theorem c6_witness :
    firstResolve [] ["\x27X\x27"] = unquote "\x27X\x27" ∧
    unquote "\x27X\x27" = "X" :=
  ⟨(c6_fallback_chain [] "f.pdf").2.1 "\x27X\x27" [] rfl, rfl⟩

/-- The condition on a leaf's operator and value under which the leaf
cannot raise: the four operators implemented by string operations
(contains, starts_with, ends_with, regex) demand a string rule value;
every other operator is safe with any value. -/
def leafValueOk (op : Option String) (value : Value) : Bool :=
  if op == some "contains" || op == some "starts_with" ||
      op == some "ends_with" || op == some "regex" then
    match value with
    | .str _ => true
    | _ => false
  else true

mutual

/-- Every dict in the tree satisfies the no-raise condition: a dict
without a logic key satisfies the leaf condition, and all dicts in the
rules entry satisfy it recursively. -/
def stringOpsOnly : Cond → Bool
  | .mk logic rules _ op value =>
    (match logic with
     | some _ => true
     | Option.none => leafValueOk op value) && stringOpsOnlyList rules

/-- The no-raise condition over a list of condition dicts. -/
def stringOpsOnlyList : List Cond → Bool
  | [] => true
  | c :: cs => stringOpsOnly c && stringOpsOnlyList cs

end

/-- A list satisfying the no-raise condition satisfies it elementwise. -/
theorem stringOpsOnlyList_mem (rules : List Cond)
    (h : stringOpsOnlyList rules = true) :
    ∀ c ∈ rules, stringOpsOnly c = true := by
  induction rules with
  | nil => intro c hc; cases hc
  | cons r rs ih =>
    intro c hc
    unfold stringOpsOnlyList at h
    rw [Bool.and_eq_true] at h
    obtain ⟨h1, h2⟩ := h
    rcases List.mem_cons.mp hc with rfl | hc'
    · exact h1
    · exact ih h2 c hc'

/-- The operator dispatch cannot raise when its operator and value
satisfy the no-raise condition. -/
theorem evalLeafOp_ok (eng : RegexEngine) (op : Option String)
    (value fv : Value) (h : leafValueOk op value = true) :
    ∃ b, evalLeafOp eng op value fv = .ok b := by
  rcases value with s | n | _
  · unfold evalLeafOp
    split_ifs <;>
      first
        | exact ⟨_, rfl⟩
        | (cases he : eng s (pyStr fv) <;> simp [he])
  · have h3 : op ≠ some "contains" := by
      intro he; rw [he] at h; simp [leafValueOk] at h
    have h4 : op ≠ some "starts_with" := by
      intro he; rw [he] at h; simp [leafValueOk] at h
    have h5 : op ≠ some "ends_with" := by
      intro he; rw [he] at h; simp [leafValueOk] at h
    have h6 : op ≠ some "regex" := by
      intro he; rw [he] at h; simp [leafValueOk] at h
    by_cases h1 : op = some "equals"
    · exact ⟨pyEq fv (Value.int n), by simp [evalLeafOp, h1]⟩
    by_cases h2 : op = some "not_equals"
    · exact ⟨!pyEq fv (Value.int n), by simp [evalLeafOp, h1, h2]⟩
    exact ⟨false, by simp [evalLeafOp, h1, h2, h3, h4, h5, h6]⟩
  · have h3 : op ≠ some "contains" := by
      intro he; rw [he] at h; simp [leafValueOk] at h
    have h4 : op ≠ some "starts_with" := by
      intro he; rw [he] at h; simp [leafValueOk] at h
    have h5 : op ≠ some "ends_with" := by
      intro he; rw [he] at h; simp [leafValueOk] at h
    have h6 : op ≠ some "regex" := by
      intro he; rw [he] at h; simp [leafValueOk] at h
    by_cases h1 : op = some "equals"
    · exact ⟨pyEq fv Value.none, by simp [evalLeafOp, h1]⟩
    by_cases h2 : op = some "not_equals"
    · exact ⟨!pyEq fv Value.none, by simp [evalLeafOp, h1, h2]⟩
    exact ⟨false, by simp [evalLeafOp, h1, h2, h3, h4, h5, h6]⟩

/-- A leaf whose operator and value satisfy the no-raise condition
evaluates without raising. -/
theorem evalLeaf_ok (eng : RegexEngine) (m : Metadata)
    (field op : Option String) (value : Value)
    (h : leafValueOk op value = true) :
    ∃ b, evalLeaf eng m field op value = .ok b := by
  cases field with
  | none => exact ⟨false, rfl⟩
  | some f =>
    have hshow : evalLeaf eng m (some f) op value
        = match m.lookup f with
          | Option.none => .ok false
          | some fv => evalLeafOp eng op value fv := rfl
    rw [hshow]
    cases hl : m.lookup f with
    | none => exact ⟨false, rfl⟩
    | some fv => exact evalLeafOp_ok eng op value fv h

/-- A conjunction whose children all evaluate without raising evaluates
without raising. -/
theorem evalAll_ok (eng : RegexEngine) (m : Metadata) (cs : List Cond)
    (h : ∀ c ∈ cs, ∃ b, evalCondition eng m c = .ok b) :
    ∃ b, evalAll eng m cs = .ok b := by
  induction cs with
  | nil => exact ⟨true, rfl⟩
  | cons c cs ih =>
    obtain ⟨b, hb⟩ := h c (List.mem_cons_self c cs)
    obtain ⟨b', hb'⟩ := ih (fun d hd => h d (List.mem_cons_of_mem c hd))
    cases b
    · exact ⟨false, by simp only [evalAll, hb]⟩
    · exact ⟨b', by simp only [evalAll, hb]; exact hb'⟩

/-- A disjunction whose children all evaluate without raising evaluates
without raising. -/
theorem evalAny_ok (eng : RegexEngine) (m : Metadata) (cs : List Cond)
    (h : ∀ c ∈ cs, ∃ b, evalCondition eng m c = .ok b) :
    ∃ b, evalAny eng m cs = .ok b := by
  induction cs with
  | nil => exact ⟨false, rfl⟩
  | cons c cs ih =>
    obtain ⟨b, hb⟩ := h c (List.mem_cons_self c cs)
    obtain ⟨b', hb'⟩ := ih (fun d hd => h d (List.mem_cons_of_mem c hd))
    cases b
    · exact ⟨b', by simp only [evalAny, hb]; exact hb'⟩
    · exact ⟨true, by simp only [evalAny, hb]⟩

/-- A group whose children all evaluate without raising evaluates
without raising, whatever its logic entry. -/
theorem evalGroup_ok (eng : RegexEngine) (m : Metadata)
    (logic : Option String) (rules : List Cond)
    (h : ∀ c ∈ rules, ∃ b, evalCondition eng m c = .ok b) :
    ∃ b, evalGroup eng m logic rules = .ok b := by
  cases rules with
  | nil => exact ⟨true, rfl⟩
  | cons c cs =>
    obtain ⟨bAll, hAll⟩ := evalAll_ok eng m (c :: cs) h
    obtain ⟨bAny, hAny⟩ := evalAny_ok eng m (c :: cs) h
    by_cases hA : pyUpper (logic.getD "AND") = "AND"
    · exact ⟨bAll, by simp [evalGroup, hA, hAll]⟩
    by_cases hO : pyUpper (logic.getD "AND") = "OR"
    · exact ⟨bAny, by simp [evalGroup, hA, hO, hAny]⟩
    exact ⟨false, by simp [evalGroup, hA, hO]⟩

/-- A condition tree satisfying the no-raise condition evaluates without
raising, by strong induction on its size. -/
theorem evalCondition_ok_of_stringOps (eng : RegexEngine) (m : Metadata) :
    ∀ n (c : Cond), sizeOf c ≤ n → stringOpsOnly c = true →
      ∃ b, evalCondition eng m c = .ok b := by
  intro n
  induction n with
  | zero =>
    intro c hc _
    exfalso
    obtain ⟨logic, rules, f, o, v⟩ := c
    simp only [Cond.mk.sizeOf_spec] at hc
    omega
  | succ n ih =>
    intro c hsize hops
    obtain ⟨logic, rules, f, o, v⟩ := c
    have hlist : stringOpsOnlyList rules = true := by
      unfold stringOpsOnly at hops
      rw [Bool.and_eq_true] at hops
      exact hops.2
    have hchild : ∀ c' ∈ rules, ∃ b, evalCondition eng m c' = .ok b := by
      intro c' hc'
      apply ih c'
      · have h1 : sizeOf c' < sizeOf rules := List.sizeOf_lt_of_mem hc'
        have h2 : sizeOf rules < sizeOf (Cond.mk logic rules f o v) := by
          simp only [Cond.mk.sizeOf_spec]; omega
        simp only [Cond.mk.sizeOf_spec] at hsize
        omega
      · exact stringOpsOnlyList_mem rules hlist c' hc'
    cases logic with
    | some l =>
      have hgroup : evalCondition eng m (Cond.mk (some l) rules f o v)
          = evalGroup eng m (some l) rules := rfl
      rw [hgroup]
      exact evalGroup_ok eng m (some l) rules hchild
    | none =>
      have hleaf : leafValueOk o v = true := by
        unfold stringOpsOnly at hops
        rw [Bool.and_eq_true] at hops
        exact hops.1
      exact evalLeaf_ok eng m f o v hleaf

/-- C1, counterexample: condition evaluation can raise: a contains leaf
whose rule value is the number 5 raises TypeError when the field is
present, because Python's in operator demands a string left operand; the
claim demands a boolean for every condition tree and metadata record. -/
theorem c1_counterexample :
    evalCondition noopEngine [("a", Value.str "x")]
        (leafC "a" "contains" (Value.int 5)) = .error .typeError ∧
    ∀ b, (Except.error SortError.typeError : Except SortError Bool)
        ≠ .ok b :=
  ⟨rfl, by simp⟩

/-- C1 as amended: condition evaluation returns a boolean and never
raises provided every leaf using contains, starts_with, ends_with or
regex carries a string rule value (a non-string value there raises
TypeError); the recoverable anomalies degrade as claimed: a missing
field gives false, an unrecognized operator gives false, a malformed
regex pattern gives false; and template resolution always returns a
string (its embedding is a total function, the code having no raising
operation on its paths). -/
theorem c1_evaluation_totality (eng : RegexEngine) (m : Metadata) :
    (∀ c, stringOpsOnly c = true → ∃ b, evalCondition eng m c = .ok b) ∧
    (∀ c, stringOpsOnly c = true → ∃ b, evalConditions eng m c = .ok b) ∧
    (∀ f op v, m.lookup f = Option.none →
       evalCondition eng m (Cond.mk Option.none [] (some f) op v)
         = .ok false) ∧
    (∀ f op v, op ≠ some "equals" → op ≠ some "not_equals" →
       op ≠ some "contains" → op ≠ some "starts_with" →
       op ≠ some "ends_with" → op ≠ some "regex" →
       evalCondition eng m (Cond.mk Option.none [] (some f) op v)
         = .ok false) ∧
    (∀ f fv pat, m.lookup f = some fv → eng pat (pyStr fv) = Option.none →
       evalCondition eng m (leafC f "regex" (Value.str pat)) = .ok false) ∧
    (∀ templates template fn, ∃ s,
       replacePlaceholders templates template m fn = s) := by
  refine ⟨fun c h =>
      evalCondition_ok_of_stringOps eng m (sizeOf c) c le_rfl h,
    fun c h => ?_, fun f op v hl => ?_,
    fun f op v h1 h2 h3 h4 h5 h6 => ?_,
    fun f fv pat hl he => ?_, fun t tm fn => ⟨_, rfl⟩⟩
  · obtain ⟨logic, rules, f, o, v⟩ := c
    have hlist : stringOpsOnlyList rules = true := by
      unfold stringOpsOnly at h
      rw [Bool.and_eq_true] at h
      exact h.2
    have hchild : ∀ c' ∈ rules, ∃ b, evalCondition eng m c' = .ok b :=
      fun c' hc' =>
        evalCondition_ok_of_stringOps eng m (sizeOf c') c' le_rfl
          (stringOpsOnlyList_mem rules hlist c' hc')
    exact evalGroup_ok eng m logic rules hchild
  · simp [evalCondition, evalLeaf, hl]
  · cases hl : m.lookup f <;>
      simp [evalCondition, evalLeaf, evalLeafOp, hl, h1, h2, h3, h4, h5, h6]
  · simp [evalCondition, leafC, evalLeaf, evalLeafOp, hl, he]

/-- Witness for C1 at a concrete group whose only leaf carries a string
value. -/
theorem c1_witness :
    ∃ b, evalCondition noopEngine [("a", Value.str "xyz")]
        (Cond.mk (some "AND") [leafC "a" "contains" (Value.str "y")]
          Option.none Option.none Value.none) = .ok b :=
  (c1_evaluation_totality noopEngine [("a", Value.str "xyz")]).1
    (Cond.mk (some "AND") [leafC "a" "contains" (Value.str "y")]
      Option.none Option.none Value.none) (by decide)

/-- The boolean match outcome of one rule, false when evaluation
raises (used only to describe error-free runs). -/
def ruleMatchesB (eng : RegexEngine) (metadata : Metadata) (r : Rule) :
    Bool :=
  match ruleMatches eng metadata r with
  | .ok b => b
  | .error _ => false

/-- An error-free run of the matching loop evaluates every rule and
returns exactly the filter of the rule list by the match outcome. -/
theorem filterMatching_ok_elim (eng : RegexEngine) (m : Metadata)
    (rs : List Rule) (l : List Rule)
    (h : filterMatchingRules eng m rs = .ok l) :
    (∀ r ∈ rs, ∃ b, ruleMatches eng m r = .ok b) ∧
    l = rs.filter (ruleMatchesB eng m) := by
  induction rs generalizing l with
  | nil =>
    simp only [filterMatchingRules] at h
    injection h with h
    subst h
    exact ⟨by simp, rfl⟩
  | cons r rs ih =>
    unfold filterMatchingRules at h
    cases hr : ruleMatches eng m r with
    | error e => rw [hr] at h; cases h
    | ok b =>
      rw [hr] at h
      cases hrest : filterMatchingRules eng m rs with
      | error e => rw [hrest] at h; cases h
      | ok rest =>
        rw [hrest] at h
        injection h with h
        obtain ⟨h1, h2⟩ := ih rest hrest
        constructor
        · intro r' hr'
          rcases List.mem_cons.mp hr' with rfl | hmem
          · exact ⟨b, hr⟩
          · exact h1 r' hmem
        · have hb : ruleMatchesB eng m r = b := by simp [ruleMatchesB, hr]
          rw [← h, List.filter_cons, hb, h2]

/-- When every rule evaluates without raising, the matching loop
returns the filter of the rule list by the match outcome. -/
theorem filterMatching_of_all_ok (eng : RegexEngine) (m : Metadata)
    (rs : List Rule)
    (h : ∀ r ∈ rs, ∃ b, ruleMatches eng m r = .ok b) :
    filterMatchingRules eng m rs = .ok (rs.filter (ruleMatchesB eng m)) := by
  induction rs with
  | nil => rfl
  | cons r rs ih =>
    obtain ⟨b, hb⟩ := h r (List.mem_cons_self r rs)
    have ih' := ih (fun d hd => h d (List.mem_cons_of_mem r hd))
    have hb' : ruleMatchesB eng m r = b := by simp [ruleMatchesB, hb]
    simp only [filterMatchingRules, hb, ih', List.filter_cons, hb']

/-- C8: rule order does not affect which rules are found: under any
permutation of the rule list, error-free runs of
_find_all_matching_rules return the same rules up to order (the same
set, since rules are matched independently), and whenever exactly one
rule matches, get_new_location computes the same path, filename and
rule-name triple under either order; only the ordering of diagnostics
depends on configuration order. -/
theorem c8_rule_order_irrelevant (eng : RegexEngine) (m : Metadata)
    (tpl : List (String × String)) (base : String)
    (rules₁ rules₂ : List Rule) (hperm : rules₁.Perm rules₂)
    (l₁ l₂ : List Rule)
    (h₁ : findAllMatchingRules eng ⟨tpl, rules₁, base⟩ m = .ok l₁)
    (h₂ : findAllMatchingRules eng ⟨tpl, rules₂, base⟩ m = .ok l₂) :
    l₁.Perm l₂ ∧
    (∀ r, l₁ = [r] →
      ∀ (ex : String → Bool) (sanP sanF : String → String) (p : String)
        (kwargs : List (String × Value)),
        prepareMetadata (osBasename p) kwargs = m →
        getNewLocation eng ex sanP sanF ⟨tpl, rules₁, base⟩ p kwargs
          = getNewLocation eng ex sanP sanF ⟨tpl, rules₂, base⟩ p kwargs) := by
  obtain ⟨hall₁, hfil₁⟩ := filterMatching_ok_elim eng m rules₁ l₁ h₁
  have hall₂ : ∀ r ∈ rules₂, ∃ b, ruleMatches eng m r = .ok b :=
    fun r hr => hall₁ r (hperm.mem_iff.mpr hr)
  have h₂' := filterMatching_of_all_ok eng m rules₂ hall₂
  have hfil₂ : l₂ = rules₂.filter (ruleMatchesB eng m) := by
    have h₂'' : filterMatchingRules eng m rules₂ = .ok l₂ := h₂
    rw [h₂'] at h₂''
    exact (Except.ok.inj h₂'').symm
  have hp : l₁.Perm l₂ := by
    rw [hfil₁, hfil₂]
    exact hperm.filter _
  refine ⟨hp, ?_⟩
  rintro r rfl ex sanP sanF p kwargs hm
  have hl₂ : l₂ = [r] := List.perm_singleton.mp hp.symm
  subst hl₂
  have e₁ : filterMatchingRules eng m rules₁ = .ok [r] := h₁
  have e₂ : filterMatchingRules eng m rules₂ = .ok [r] := h₂
  cases hex : ex p
  · simp [getNewLocation, hex]
  · simp only [getNewLocation, hex, if_true, hm, e₁, e₂]

/-- Witness for C8 at two concrete rules swapped, the first always
matching and the second never. -/
theorem c8_witness :
    getNewLocation noopEngine (fun _ => true) id id
        ⟨[], [⟨some "A", Option.none, some "pa", Option.none⟩,
              ⟨some "B", some (Cond.mk (some "AND")
                  [leafC "zz" "equals" (Value.str "q")]
                  Option.none Option.none Value.none),
                some "pb", Option.none⟩], "/o"⟩ "/f.pdf" []
      = getNewLocation noopEngine (fun _ => true) id id
          ⟨[], [⟨some "B", some (Cond.mk (some "AND")
                  [leafC "zz" "equals" (Value.str "q")]
                  Option.none Option.none Value.none),
                some "pb", Option.none⟩,
                ⟨some "A", Option.none, some "pa", Option.none⟩], "/o"⟩
          "/f.pdf" [] :=
  (c8_rule_order_irrelevant noopEngine
    (prepareMetadata (osBasename "/f.pdf") []) [] "/o"
    [⟨some "A", Option.none, some "pa", Option.none⟩,
     ⟨some "B", some (Cond.mk (some "AND")
         [leafC "zz" "equals" (Value.str "q")]
         Option.none Option.none Value.none), some "pb", Option.none⟩]
    [⟨some "B", some (Cond.mk (some "AND")
         [leafC "zz" "equals" (Value.str "q")]
         Option.none Option.none Value.none), some "pb", Option.none⟩,
     ⟨some "A", Option.none, some "pa", Option.none⟩]
    (List.Perm.swap _ _ _)
    [⟨some "A", Option.none, some "pa", Option.none⟩]
    [⟨some "A", Option.none, some "pa", Option.none⟩] rfl rfl).2
    ⟨some "A", Option.none, some "pa", Option.none⟩ rfl
    (fun _ => true) id id "/f.pdf" [] rfl

/-- C5: planning enforces the exactly-one-match invariant: with the
original file present and an error-free matching pass yielding the list
of matched rules, zero matches raise NoRuleMatched, two or more raise
AmbiguousRuleMatch naming every matched rule in configuration order
(the matched list preserves configuration order), and exactly one match
proceeds to template resolution of the rule's path and filename and
returns the sanitized results with the rule's name. -/
theorem c5_exactly_one_match (eng : RegexEngine) (ex : String → Bool)
    (sanP sanF : String → String) (fs : FileSorter) (p : String)
    (kwargs : List (String × Value)) (l : List Rule)
    (hex : ex p = true)
    (hfind : filterMatchingRules eng (prepareMetadata (osBasename p) kwargs)
        fs.rules = .ok l) :
    (l = [] → getNewLocation eng ex sanP sanF fs p kwargs
        = .error (.noRuleMatched (osBasename p))) ∧
    (∀ r₁ r₂ rest, l = r₁ :: r₂ :: rest →
      getNewLocation eng ex sanP sanF fs p kwargs
        = .error (.ambiguousRuleMatch (osBasename p) (l.map ruleNameOf))) ∧
    (∀ r, l = [r] →
      getNewLocation eng ex sanP sanF fs p kwargs
        = .ok (sanP (osPathJoin fs.baseOutputDir
            (replacePlaceholders fs.templates (r.path.getD ".")
              (prepareMetadata (osBasename p) kwargs) (osBasename p))),
          sanF (replacePlaceholders fs.templates
            (r.filename.getD "\x7boriginal\x7d")
            (prepareMetadata (osBasename p) kwargs) (osBasename p)),
          ruleNameOf r)) := by
  refine ⟨fun hl => ?_, fun r₁ r₂ rest hl => ?_, fun r hl => ?_⟩ <;>
    subst hl <;>
    simp [getNewLocation, hex, hfind]

/-- Witness for C5 at a one-rule configuration whose rule always
matches. -/
theorem c5_witness :
    getNewLocation noopEngine (fun _ => true) id id
        ⟨[], [⟨some "R", Option.none, some "out", Option.none⟩], "/o"⟩
        "/tmp/f.pdf" []
      = .ok ("/o/out", "f", "R") := by
  have h := (c5_exactly_one_match noopEngine (fun _ => true) id id
      ⟨[], [⟨some "R", Option.none, some "out", Option.none⟩], "/o"⟩
      "/tmp/f.pdf" [] [⟨some "R", Option.none, some "out", Option.none⟩]
      rfl rfl).2.2 ⟨some "R", Option.none, some "out", Option.none⟩ rfl
  rw [h]
  rfl

end RuleBasedSort
